import Mathlib

/-!
# cairo-gl-sdl2 benchmark harness (`src/main.cpp`)

A shallow embedding of `draw`, the warm-up loop, the presentation-loop callback, the
statistics lines and the exit-status cascade of `main`, followed by the properties
proved about them.

Conventions of the embedding:

* a `double` is the rational number it denotes. The arithmetic of `draw` on its
  `static double s` is IEEE 754 binary64: every result is rounded to the nearest
  value with a 53-bit significand, ties to even (`toDouble`); the values involved lie
  between `2 ^ (-8)` and `4`, far from overflow and from the subnormal range;
* `pct` in the warm-up loop is kept as the exact quotient `100 * i / n`; it is only
  compared with integers and truncated to one;
* `unsigned long` values are naturals reduced modulo `2 ^ bits` after every addition,
  where `bits` is the width of `unsigned long` on the platform;
* `int` values are integers; the only `int` arithmetic of the program is the loop
  counter `i`, which stays below `num_draws`;
* everything the program does to the outside world is recorded, in program order, in
  a trace of `Event`s; what the outside world answers is read from an `Env`.
-/

namespace CairoBench

/-! ## Definitions -/

/-- The three surface variants `main` can create. -/
inductive Surface where
  | image
  | gl
  | glTexture
  deriving DecidableEq, Repr

/-- Externally visible actions of one run, in program order. -/
inductive Event where
  /-- Usage text on `std::cerr`. -/
  | usage
  /-- Call of `window.init(WIDTH, HEIGHT)`. -/
  | windowInit
  /-- One of the four "...; fatal." lines on `std::cerr`, tagged by the status returned. -/
  | fatal (status : Int)
  /-- The `glEnable`/`glBlendFunc`/`glViewport`/`glClearColor` block. -/
  | glSetup
  /-- Call of `cairo_glx_device_create`. -/
  | deviceCreate
  /-- The `glGenTextures`/`glBindTexture`/`glTexImage2D` block. -/
  | textureAlloc
  /-- Call of one of the three `cairo_*_surface_create*` functions. -/
  | surfaceCreate (kind : Surface)
  /-- The line "Performing n iterations: ". -/
  | performing (n : Int)
  /-- One invocation of `draw`. -/
  | draw
  /-- One "+" on `std::cout`, tagged with the loop index `i` that printed it. -/
  | plus (i : Int)
  /-- The line " done! (..ms)". -/
  | done (ms : Nat)
  /-- Call of `cairo_gl_surface_swapbuffers`. -/
  | swapBuffers
  /-- The textured quad drawn with `texture` bound. -/
  | composite (texture : Nat)
  /-- The line "FPS: ..". -/
  | printFps (fps : Nat)
  /-- The line "Cairo average time: ..ms". -/
  | printCairoAvg (ms : Nat)
  /-- The line "SDL2 average time: ..ms". -/
  | printSdlAvg (ms : Nat)
  /-- Call of `cairo_surface_destroy`. -/
  | surfaceDestroy
  /-- Call of `cairo_device_destroy`. -/
  | deviceDestroy
  /-- Call of `window.deinit`. -/
  | windowDeinit
  deriving DecidableEq, Repr

/-- Process state: the `static double s` of `draw` and the actions performed so far. -/
structure World where
  s : ℚ
  trace : List Event

/-- A fresh process: `s` holds its initialiser `1.0` and nothing has happened. -/
def World.fresh : World := { s := 1, trace := [] }

/-- Record one action. -/
def World.emit (w : World) (e : Event) : World := { w with trace := w.trace ++ [e] }

/-- Number of `draw` invocations recorded in a trace. -/
def drawCount (t : List Event) : Nat := t.count Event.draw

/-- Nearest integer to `q`, the even one of the two when `q` lies halfway. -/
def roundTiesEven (q : ℚ) : Int :=
  if q - ⌊q⌋ < 1 / 2 then ⌊q⌋
  else if 1 / 2 < q - ⌊q⌋ then ⌊q⌋ + 1
  else if ⌊q⌋ % 2 = 0 then ⌊q⌋ else ⌊q⌋ + 1

/-- Spacing of the binary64 values around `x`: `2 ^ (e - 52)` where
`2 ^ e <= |x| < 2 ^ (e + 1)`. -/
def ulp (x : ℚ) : ℚ := (2 : ℚ) ^ (Int.log 2 |x| - 52)

/-- The binary64 value an arithmetic result `x` is rounded to (round to nearest, ties
to even), for `x` in the normal range. -/
def toDouble (x : ℚ) : ℚ := roundTiesEven (x / ulp x) * ulp x

/-- Embedding of `draw`: paint with the current `s`, then `s += 1.0 / 180.0` (a
division and an addition of doubles, each rounded) and `if (s >= 2.0) s = 1.0`. -/
def draw (w : World) : World :=
  let s := toDouble (w.s + toDouble (1 / 180))
  { s := if s ≥ 2 then 1 else s, trace := w.trace ++ [Event.draw] }

/-- Round-to-nearest, ties-to-even, of the quotient `n / d` of two naturals. -/
def rneNat (n d : Nat) : Nat :=
  if 2 * (n % d) < d then n / d
  else if d < 2 * (n % d) then n / d + 1
  else if n / d % 2 = 0 then n / d else n / d + 1

/-- Significand of the double `1.0 / 180.0`, which is `stepSig / 2 ^ 60`. -/
def stepSig : Nat := 6405119470038039

/-- One `draw` on the significand `m` of `s = m / 2 ^ 52` (a double in `[1, 2)`): the
sum `(256 * m + stepSig) / 2 ^ 60` rounded to a multiple of `2 ^ (-52)`, replaced by
the significand of `1.0` once it reaches that of `2.0`. -/
def sigStep (m : Nat) : Nat :=
  if rneNat (256 * m + stepSig) 256 ≥ 2 ^ 53 then 2 ^ 52
  else rneNat (256 * m + stepSig) 256

/-- Significand of `s` after `N` invocations of `draw` in a fresh process. -/
def sigAfter (N : Nat) : Nat := sigStep^[N] (2 ^ 52)

/-- The scale factor agrees with the number of `draw` invocations recorded so far. -/
def World.inStep (w : World) : Prop :=
  w.s = (sigAfter (drawCount w.trace) : ℚ) / 2 ^ 52

/-- Conversion `double -> int` (truncation toward zero), as in `last_tick = pct`. -/
def truncToInt (q : ℚ) : Int := if 0 ≤ q then ⌊q⌋ else ⌈q⌉

/-- The value of `(static_cast<double>(i) / static_cast<double>(num_draws)) * 100.0`. -/
def pct (i num_draws : Int) : ℚ := (i : ℚ) / (num_draws : ℚ) * 100

/-- Variables live across the warm-up loop. -/
structure WarmState where
  world : World
  last_tick : Int

/-- Body of the warm-up loop for loop index `i`: `draw(surface)`, then the progress
meter `if (pct >= last_tick + 10.0) { "+"; last_tick = pct; }`. -/
def warmupBody (num_draws : Int) (st : WarmState) (i : Int) : WarmState :=
  let w := draw st.world
  if pct i num_draws ≥ (st.last_tick : ℚ) + 10 then
    { world := w.emit (Event.plus i), last_tick := truncToInt (pct i num_draws) }
  else
    { world := w, last_tick := st.last_tick }

/-- State after the first `k` iterations (`i = 0, .., k - 1`) of the warm-up loop. -/
def warmupPrefix (num_draws : Int) (k : Nat) (w : World) : WarmState :=
  (List.range k).foldl (fun st i => warmupBody num_draws st (i : Int))
    { world := w, last_tick := 0 }

/-- Embedding of `for (auto i = 0; i < num_draws; i++) { .. }` with `last_tick = 0`
before it: the body runs for `i = 0, .., num_draws - 1`, not at all if
`num_draws <= 0`. -/
def warmupLoop (num_draws : Int) (w : World) : WarmState :=
  warmupPrefix num_draws num_draws.toNat w

/-- Loop indices that printed a "+", in the order they did. -/
def plusIndices (t : List Event) : List Int :=
  t.filterMap fun e => match e with
    | Event.plus i => some i
    | _ => none

/-- Indices of the iterations that print a "+" in a warm-up of `num_draws` iterations. -/
def warmupMarks (num_draws : Int) : List Int :=
  plusIndices (warmupLoop num_draws World.fresh).world.trace

/-- Indices that have printed a "+" once the first `k` warm-up iterations have run. -/
def marksUpTo (num_draws : Int) (k : Nat) : List Int :=
  plusIndices (warmupPrefix num_draws k World.fresh).world.trace

/-- Value of `last_tick` once the first `k` warm-up iterations have run. -/
def lastTickUpTo (num_draws : Int) (k : Nat) : Int :=
  (warmupPrefix num_draws k World.fresh).last_tick

/-- The value `floor(pct / 10)` of iteration `i`. -/
def decile (i num_draws : Int) : Int := ⌊pct i num_draws / 10⌋

/-- Value of `last_tick` determined by the iterations that have printed so far: the
truncated `pct` of the last of them, or the initial `0` if there is none. -/
def lastTickOf (num_draws : Int) (marks : List Int) : Int :=
  match marks.getLast? with
  | none => 0
  | some j => truncToInt (pct j num_draws)

/-- The specification's wording of the progress rule: the decile of the last printed
indicator, `0` if none has been printed. -/
def specLastDecile (num_draws : Int) (marks : List Int) : Int :=
  match marks.getLast? with
  | none => 0
  | some j => decile j num_draws

/-- What the windowing collaborator and the clock answer during one tick. -/
structure Tick where
  /-- Result of `window.makeCairoCurrent()`. -/
  cairoCurrent : Bool
  /-- Result of `window.makeCurrent()`. -/
  current : Bool
  /-- Result of the first `timediff(start)`. -/
  cairoMs : Nat
  /-- Result of the second `timediff(start)`. -/
  sdlMs : Nat

/-- Variables captured by the presentation-loop callback. -/
structure LoopState where
  world : World
  frames : Nat
  cairoTime : Nat
  sdlTime : Nat

/-- Embedding of the callback passed to `window.main`; `bits` is the width of
`unsigned long`, `texture` the captured `GLuint texture`. -/
def tickBody (bits texture : Nat) (st : LoopState) (t : Tick) : LoopState :=
  let w1 := if t.cairoCurrent then (draw st.world).emit Event.swapBuffers else st.world
  let cairoTime := (st.cairoTime + t.cairoMs) % 2 ^ bits
  let w2 := if t.current then w1.emit (Event.composite texture) else w1
  let sdlTime := (st.sdlTime + t.sdlMs) % 2 ^ bits
  { world := w2, frames := (st.frames + 1) % 2 ^ bits, cairoTime := cairoTime,
    sdlTime := sdlTime }

/-- The presentation loop: the callback run once per delivered tick, starting from
`frames = cairoTime = sdlTime = 0`. -/
def presentationLoop (bits texture : Nat) (ticks : List Tick) (w : World) : LoopState :=
  ticks.foldl (tickBody bits texture) { world := w, frames := 0, cairoTime := 0, sdlTime := 0 }

/-- Unsigned integer division as the machine performs it: no result on a zero divisor. -/
def udiv (a b : Nat) : Option Nat := if b = 0 then none else some (a / b)

/-- Embedding of the three statistics lines after `window.main` returns;
`elapsedMs` is the value of `timediff(drawStart)`. The result is `Except.error`
with the world reached when a division has a zero divisor. -/
def report (frames cairoTime sdlTime elapsedMs : Nat) (w : World) : Except World World :=
  match udiv frames (elapsedMs / 1000) with
  | none => .error w
  | some fps =>
    let w1 := w.emit (Event.printFps fps)
    match udiv cairoTime frames with
    | none => .error w1
    | some a =>
      let w2 := w1.emit (Event.printCairoAvg a)
      match udiv sdlTime frames with
      | none => .error w2
      | some b => .ok (w2.emit (Event.printSdlAvg b))

/-- What the outside world answers in one run. -/
structure Env where
  /-- Result of `window.init(WIDTH, HEIGHT)`. -/
  initOk : Bool
  /-- Result of the `window.makeCurrent()` guarding the GL set-up block. -/
  setupCurrent : Bool
  /-- Whether `cairo_glx_device_create` returns a non-null device. -/
  deviceOk : Bool
  /-- Texture name written by `glGenTextures`. -/
  textureName : Nat
  /-- Whether the surface constructor that is called returns a non-null surface. -/
  surfaceOk : Bool
  /-- Result of `timediff(start)` after the warm-up loop. -/
  warmupMs : Nat
  /-- Ticks delivered by `window.main` before it returns; `none` if it never returns. -/
  ticks : Option (List Tick)
  /-- Result of `timediff(drawStart)`. -/
  elapsedMs : Nat

/-- How a run of `main` ends. -/
inductive Outcome where
  /-- Return from `main` with the given status. -/
  | exit (status : Int) (w : World)
  /-- An integer division with a zero divisor was executed. -/
  | divByZero (w : World)
  /-- Control is still inside `window.main`. -/
  | blocked (w : World)

/-- Status returned by `main`, if it returns. -/
def Outcome.status : Outcome → Option Int
  | .exit c _ => some c
  | _ => none

/-- World reached at the end of the run. -/
def Outcome.world : Outcome → World
  | .exit _ w => w
  | .divByZero w => w
  | .blocked w => w

/-- Whether the run ended in an integer division by zero. -/
def Outcome.isDivByZero : Outcome → Bool
  | .divByZero _ => true
  | _ => false

/-- Surface selection `if (method == "image") .. else if (method == "gl") .. else if
(method == "gl_texture") ..`: the variant created for a mode string, if any. -/
def selectSurface (method : String) : Option Surface :=
  if method = "image" then some Surface.image
  else if method = "gl" then some Surface.gl
  else if method = "gl_texture" then some Surface.glTexture
  else none

/-- Embedding of `main`. `argv` is the argument vector (program name first, so
`argc = argv.length`), `atoi` is `std::atoi`, `bits` the width of `unsigned long`. -/
def main (bits : Nat) (atoi : String → Int) (env : Env) (argv : List String) : Outcome :=
  let w := World.fresh
  if argv.length ≠ 3 then
    .exit 1 (w.emit Event.usage)
  else
    let w := w.emit Event.windowInit
    if !env.initOk then
      .exit 2 (w.emit (Event.fatal 2))
    else
      let w := if env.setupCurrent then w.emit Event.glSetup else w
      let w := w.emit Event.deviceCreate
      if !env.deviceOk then
        .exit 3 (w.emit (Event.fatal 3))
      else
        let num_draws := atoi (argv.getD 1 "")
        let method := argv.getD 2 ""
        match selectSurface method with
        | none => .exit 4 (w.emit (Event.fatal 4))
        | some kind =>
          let w := if kind = Surface.glTexture then w.emit Event.textureAlloc else w
          let texture := if kind = Surface.glTexture then env.textureName else 0
          let w := w.emit (Event.surfaceCreate kind)
          if !env.surfaceOk then
            .exit 5 (w.emit (Event.fatal 5))
          else
            let w := w.emit (Event.performing num_draws)
            let w := (warmupLoop num_draws w).world
            let w := w.emit (Event.done env.warmupMs)
            match env.ticks with
            | none => .blocked w
            | some ticks =>
              let st := presentationLoop bits texture ticks w
              match report st.frames st.cairoTime st.sdlTime env.elapsedMs st.world with
              | .error w => .divByZero w
              | .ok w =>
                let w := w.emit Event.surfaceDestroy
                let w := w.emit Event.deviceDestroy
                let w := w.emit Event.windowDeinit
                .exit 0 w

/-- World in which `main` enters the warm-up loop when every check before it passes:
window initialised, GL set up if the context could be made current, device created,
texture allocated for the texture-backed variant, surface created, banner printed. -/
def warmupEntry (env : Env) (kind : Surface) (num_draws : Int) : World :=
  let w := World.fresh.emit Event.windowInit
  let w := if env.setupCurrent then w.emit Event.glSetup else w
  let w := w.emit Event.deviceCreate
  let w := if kind = Surface.glTexture then w.emit Event.textureAlloc else w
  let w := w.emit (Event.surfaceCreate kind)
  w.emit (Event.performing num_draws)

/-- State of the callback's variables when `window.main` returns after `ticks`. -/
def loopExit (bits : Nat) (env : Env) (kind : Surface) (num_draws : Int)
    (ticks : List Tick) : LoopState :=
  presentationLoop bits (if kind = Surface.glTexture then env.textureName else 0) ticks
    ((warmupLoop num_draws (warmupEntry env kind num_draws)).world.emit
      (Event.done env.warmupMs))

/-! ## Theorems -/

/-! ### Binary64 rounding of the sums in `draw` -/

theorem log_two_eq (x : ℚ) (e : Int) (h0 : 0 < x) (h1 : (2 : ℚ) ^ e ≤ x)
    (h2 : x < (2 : ℚ) ^ (e + 1)) : Int.log 2 x = e := by
  have a : e ≤ Int.log 2 x := (Int.zpow_le_iff_le_log (by norm_num) h0).mp (by simpa using h1)
  have b : Int.log 2 x < e + 1 :=
    (Int.lt_zpow_iff_log_lt (by norm_num) h0).mp (by simpa using h2)
  omega

theorem ulp_eq (x : ℚ) (e : Int) (h0 : 0 < x) (h1 : (2 : ℚ) ^ e ≤ x)
    (h2 : x < (2 : ℚ) ^ (e + 1)) : ulp x = (2 : ℚ) ^ (e - 52) := by
  unfold ulp
  rw [abs_of_pos h0, log_two_eq x e h0 h1 h2]

theorem floor_nat_div (n d : Nat) : ⌊((n : ℚ) / (d : ℚ))⌋ = ((n / d : Nat) : Int) := by
  have h := Rat.floor_intCast_div_natCast (n : Int) d
  simpa using h

theorem fract_nat_div (n d : Nat) (hd : 0 < d) :
    (n : ℚ) / (d : ℚ) - (((n / d : Nat) : Int) : ℚ) = ((n % d : Nat) : ℚ) / (d : ℚ) := by
  have hd' : (d : ℚ) ≠ 0 := by exact_mod_cast hd.ne'
  have h : (n : ℚ) = ((n % d : Nat) : ℚ) + (d : ℚ) * ((n / d : Nat) : ℚ) := by
    exact_mod_cast (Nat.mod_add_div n d).symm
  generalize n / d = q at h ⊢
  generalize n % d = r at h ⊢
  rw [Int.cast_natCast, h]
  field_simp

theorem roundTiesEven_div (n d : Nat) (hd : 0 < d) :
    roundTiesEven ((n : ℚ) / (d : ℚ)) = ((rneNat n d : Nat) : Int) := by
  have hdq : (0 : ℚ) < (d : ℚ) := by exact_mod_cast hd
  unfold roundTiesEven rneNat
  rw [floor_nat_div, fract_nat_div n d hd]
  have c1 : ((n % d : Nat) : ℚ) / (d : ℚ) < 1 / 2 ↔ 2 * (n % d) < d := by
    rw [div_lt_div_iff₀ hdq (by norm_num)]
    constructor
    · intro h
      have : ((2 * (n % d) : Nat) : ℚ) < ((d : Nat) : ℚ) := by push_cast; linarith
      exact_mod_cast this
    · intro h
      have : ((2 * (n % d) : Nat) : ℚ) < ((d : Nat) : ℚ) := by exact_mod_cast h
      push_cast at this
      linarith
  have c2 : (1 : ℚ) / 2 < ((n % d : Nat) : ℚ) / (d : ℚ) ↔ d < 2 * (n % d) := by
    rw [div_lt_div_iff₀ (by norm_num) hdq]
    constructor
    · intro h
      have : ((d : Nat) : ℚ) < ((2 * (n % d) : Nat) : ℚ) := by push_cast; linarith
      exact_mod_cast this
    · intro h
      have : ((d : Nat) : ℚ) < ((2 * (n % d) : Nat) : ℚ) := by exact_mod_cast h
      push_cast at this
      linarith
  have c3 : (((n / d : Nat) : Int) % 2 = 0) ↔ (n / d % 2 = 0) := by omega
  simp only [c1, c2, c3]
  split_ifs <;> simp

theorem floor_le_roundTiesEven (q : ℚ) : ⌊q⌋ ≤ roundTiesEven q := by
  unfold roundTiesEven
  split_ifs <;> omega

theorem stepSig_eq : rneNat (2 ^ 60) 180 = stepSig := by decide!

theorem toDouble_step : toDouble (1 / 180) = (stepSig : ℚ) / 2 ^ 60 := by
  have hu : ulp (1 / 180) = (2 : ℚ) ^ ((-8 : Int) - 52) :=
    ulp_eq (1 / 180) (-8) (by norm_num) (by norm_num) (by norm_num)
  have hq : (1 / 180 : ℚ) / (2 : ℚ) ^ ((-8 : Int) - 52)
      = (((2 ^ 60 : Nat) : ℚ)) / ((180 : Nat) : ℚ) := by
    norm_num
  have h60 : (2 : ℚ) ^ ((-8 : Int) - 52) = 1 / 2 ^ 60 := by norm_num
  unfold toDouble
  rw [hu, hq, roundTiesEven_div _ _ (by norm_num), stepSig_eq, h60, Int.cast_natCast]
  ring

theorem toDouble_sum_lt (m : Nat) (h1 : 2 ^ 52 ≤ m) (h2 : 256 * m + stepSig < 2 ^ 61) :
    toDouble ((m : ℚ) / 2 ^ 52 + (stepSig : ℚ) / 2 ^ 60)
      = ((rneNat (256 * m + stepSig) 256 : Nat) : ℚ) / 2 ^ 52 := by
  have hx : (m : ℚ) / 2 ^ 52 + (stepSig : ℚ) / 2 ^ 60
      = ((256 * m + stepSig : Nat) : ℚ) / 2 ^ 60 := by
    push_cast
    ring
  have hlo : ((2 ^ 60 : Nat) : ℚ) ≤ ((256 * m + stepSig : Nat) : ℚ) := by
    have : 2 ^ 60 ≤ 256 * m + stepSig := by omega
    exact_mod_cast this
  have hhi : ((256 * m + stepSig : Nat) : ℚ) < ((2 ^ 61 : Nat) : ℚ) := by exact_mod_cast h2
  rw [hx]
  generalize 256 * m + stepSig = n at hlo hhi ⊢
  norm_num at hlo hhi
  have hu : ulp ((n : ℚ) / 2 ^ 60) = (2 : ℚ) ^ ((0 : Int) - 52) := by
    apply ulp_eq
    · positivity
    · rw [zpow_zero, le_div_iff₀ (by positivity)]
      norm_num
      exact hlo
    · rw [div_lt_iff₀ (by positivity)]
      norm_num
      exact hhi
  have hq : (n : ℚ) / 2 ^ 60 / (2 : ℚ) ^ ((0 : Int) - 52) = (n : ℚ) / ((256 : Nat) : ℚ) := by
    norm_num
    ring
  have h52 : (2 : ℚ) ^ ((0 : Int) - 52) = 1 / 2 ^ 52 := by norm_num
  unfold toDouble
  rw [hu, hq, roundTiesEven_div _ _ (by norm_num), h52, Int.cast_natCast]
  ring

theorem toDouble_sum_ge (m : Nat) (h1 : m < 2 ^ 53) (h2 : 2 ^ 61 ≤ 256 * m + stepSig) :
    2 ≤ toDouble ((m : ℚ) / 2 ^ 52 + (stepSig : ℚ) / 2 ^ 60) := by
  have hx : (m : ℚ) / 2 ^ 52 + (stepSig : ℚ) / 2 ^ 60
      = ((256 * m + stepSig : Nat) : ℚ) / 2 ^ 60 := by
    push_cast
    ring
  have hlo : ((2 ^ 61 : Nat) : ℚ) ≤ ((256 * m + stepSig : Nat) : ℚ) := by exact_mod_cast h2
  have hhi : ((256 * m + stepSig : Nat) : ℚ) < ((2 ^ 62 : Nat) : ℚ) := by
    have : 256 * m + stepSig < 2 ^ 62 := by unfold stepSig; omega
    exact_mod_cast this
  rw [hx]
  generalize 256 * m + stepSig = n at hlo hhi ⊢
  norm_num at hlo hhi
  have hu : ulp ((n : ℚ) / 2 ^ 60) = (2 : ℚ) ^ ((1 : Int) - 52) := by
    apply ulp_eq
    · positivity
    · rw [zpow_one, le_div_iff₀ (by positivity)]
      norm_num
      exact hlo
    · rw [div_lt_iff₀ (by positivity)]
      norm_num
      exact hhi
  have hq : (n : ℚ) / 2 ^ 60 / (2 : ℚ) ^ ((1 : Int) - 52) = (n : ℚ) / ((512 : Nat) : ℚ) := by
    norm_num
    ring
  have hfl : (2 ^ 52 : Int) ≤ ⌊(n : ℚ) / ((512 : Nat) : ℚ)⌋ := by
    rw [Int.le_floor, le_div_iff₀ (by norm_num)]
    norm_num
    exact hlo
  have hr : ((2 ^ 52 : Int) : ℚ) ≤ ((roundTiesEven ((n : ℚ) / ((512 : Nat) : ℚ)) : Int) : ℚ) := by
    exact_mod_cast le_trans hfl (floor_le_roundTiesEven _)
  have h51 : (2 : ℚ) ^ ((1 : Int) - 52) = 1 / 2 ^ 51 := by norm_num
  unfold toDouble
  rw [hu, hq, h51, mul_one_div, le_div_iff₀ (by positivity)]
  norm_num at hr ⊢
  exact hr

/-! ### Scene renderer -/

theorem draw_s (w : World) :
    (draw w).s = if toDouble (w.s + toDouble (1 / 180)) ≥ 2 then 1
      else toDouble (w.s + toDouble (1 / 180)) := rfl

theorem div_le_rneNat (n d : Nat) : n / d ≤ rneNat n d := by
  unfold rneNat
  split_ifs <;> omega

theorem sigStep_range (m : Nat) (h : 2 ^ 52 ≤ m) :
    2 ^ 52 ≤ sigStep m ∧ sigStep m < 2 ^ 53 := by
  have h1 := div_le_rneNat (256 * m + stepSig) 256
  have h2 : m ≤ (256 * m + stepSig) / 256 := by omega
  unfold sigStep
  split_ifs with hr
  · norm_num
  · exact ⟨le_trans h (le_trans h2 h1), not_le.mp hr⟩

/-- One `draw` in terms of the significand of `s`. -/
theorem draw_sig (w : World) (m : Nat) (hs : w.s = (m : ℚ) / 2 ^ 52)
    (h1 : 2 ^ 52 ≤ m) (h2 : m < 2 ^ 53) :
    (draw w).s = (sigStep m : ℚ) / 2 ^ 52 := by
  rw [draw_s, toDouble_step, hs]
  by_cases hn : 256 * m + stepSig < 2 ^ 61
  · rw [toDouble_sum_lt m h1 hn]
    unfold sigStep
    by_cases hr : rneNat (256 * m + stepSig) 256 ≥ 2 ^ 53
    · have hq : ((rneNat (256 * m + stepSig) 256 : Nat) : ℚ) / 2 ^ 52 ≥ 2 := by
        rw [ge_iff_le, le_div_iff₀ (by positivity)]
        have : ((2 ^ 53 : Nat) : ℚ) ≤ ((rneNat (256 * m + stepSig) 256 : Nat) : ℚ) := by
          exact_mod_cast hr
        norm_num at this ⊢
        exact this
      rw [if_pos hq, if_pos hr]
      norm_num
    · have hq : ¬ (((rneNat (256 * m + stepSig) 256 : Nat) : ℚ) / 2 ^ 52 ≥ 2) := by
        rw [ge_iff_le, le_div_iff₀ (by positivity), not_le]
        have : ((rneNat (256 * m + stepSig) 256 : Nat) : ℚ) < ((2 ^ 53 : Nat) : ℚ) := by
          exact_mod_cast not_le.mp hr
        norm_num at this ⊢
        exact this
      rw [if_neg hq, if_neg hr]
  · have hge : 2 ^ 61 ≤ 256 * m + stepSig := not_lt.mp hn
    have hr : rneNat (256 * m + stepSig) 256 ≥ 2 ^ 53 := by
      have h3 := div_le_rneNat (256 * m + stepSig) 256
      have h4 : 2 ^ 53 ≤ (256 * m + stepSig) / 256 := by omega
      exact le_trans h4 h3
    rw [if_pos (toDouble_sum_ge m h2 hge)]
    unfold sigStep
    rw [if_pos hr]
    norm_num

theorem sigAfter_zero : sigAfter 0 = 2 ^ 52 := rfl

theorem sigAfter_succ (N : Nat) : sigAfter (N + 1) = sigStep (sigAfter N) := by
  unfold sigAfter
  rw [Function.iterate_succ_apply']

theorem sigAfter_range (N : Nat) : 2 ^ 52 ≤ sigAfter N ∧ sigAfter N < 2 ^ 53 := by
  induction N with
  | zero => rw [sigAfter_zero]; norm_num
  | succ k ih =>
    rw [sigAfter_succ]
    exact sigStep_range _ ih.1

theorem drawCount_append (t u : List Event) :
    drawCount (t ++ u) = drawCount t + drawCount u := by
  simp [drawCount, List.count_append]

theorem drawCount_draw (w : World) : drawCount (draw w).trace = drawCount w.trace + 1 := by
  simp [draw, drawCount_append, drawCount]

theorem drawCount_emit (w : World) (e : Event) (h : e ≠ Event.draw) :
    drawCount (w.emit e).trace = drawCount w.trace := by
  simp [World.emit, drawCount, List.count_append, List.count_singleton, h]

theorem emit_s (w : World) (e : Event) : (w.emit e).s = w.s := rfl

theorem inStep_of_start (w : World) (hs : w.s = 1) (hd : drawCount w.trace = 0) :
    w.inStep := by
  unfold World.inStep
  rw [hd, sigAfter_zero, hs]
  norm_num

theorem inStep_fresh : World.fresh.inStep := inStep_of_start _ rfl rfl

theorem inStep_draw (w : World) (h : w.inStep) : (draw w).inStep := by
  unfold World.inStep at h ⊢
  rw [drawCount_draw, sigAfter_succ]
  exact draw_sig w _ h (sigAfter_range _).1 (sigAfter_range _).2

theorem inStep_emit (w : World) (e : Event) (he : e ≠ Event.draw) (h : w.inStep) :
    (w.emit e).inStep := by
  unfold World.inStep at h ⊢
  rw [drawCount_emit w e he, emit_s]
  exact h

theorem iterate_draw (N : Nat) :
    (draw^[N] World.fresh).inStep ∧ drawCount (draw^[N] World.fresh).trace = N := by
  induction N with
  | zero => exact ⟨inStep_fresh, rfl⟩
  | succ k ih =>
    rw [Function.iterate_succ_apply']
    exact ⟨inStep_draw _ ih.1, by rw [drawCount_draw, ih.2]⟩

theorem iterate_draw_s (N : Nat) :
    (draw^[N] World.fresh).s = (sigAfter N : ℚ) / 2 ^ 52 := by
  have h := (iterate_draw N).1
  unfold World.inStep at h
  rw [(iterate_draw N).2] at h
  exact h

/-! ### The 181 values of the scale factor -/

theorem sigAfter_180 : sigAfter 180 = 2 ^ 53 - 16 := by decide!

theorem sigAfter_181 : sigAfter 181 = 2 ^ 52 := by decide!

theorem sigAfter_table : ∀ k < 181,
    (180 + k) * 2 ^ 52 ≤ 180 * sigAfter k + 180 * 16
      ∧ 180 * sigAfter k ≤ (180 + k) * 2 ^ 52 := by decide!

theorem sigAfter_add_period (N : Nat) : sigAfter (N + 181) = sigAfter N := by
  have h : sigStep^[181] (2 ^ 52) = 2 ^ 52 := sigAfter_181
  unfold sigAfter
  rw [Function.iterate_add_apply, h]

theorem sigAfter_add_mul (r q : Nat) : sigAfter (r + 181 * q) = sigAfter r := by
  induction q with
  | zero => rfl
  | succ q ih =>
    rw [Nat.mul_succ, ← Nat.add_assoc, sigAfter_add_period, ih]

theorem sigAfter_mod (N : Nat) : sigAfter N = sigAfter (N % 181) := by
  conv_lhs => rw [← Nat.mod_add_div N 181]
  exact sigAfter_add_mul _ _

/-- The scale factor after `N` draws, against the exact value of step `N mod 181`. -/
theorem scale_bounds (N : Nat) :
    1 + ((N % 181 : Nat) : ℚ) * (1 / 180) - 1 / 2 ^ 48 ≤ (sigAfter N : ℚ) / 2 ^ 52
      ∧ (sigAfter N : ℚ) / 2 ^ 52 ≤ 1 + ((N % 181 : Nat) : ℚ) * (1 / 180) := by
  obtain ⟨h1, h2⟩ := sigAfter_table (N % 181) (Nat.mod_lt _ (by norm_num))
  rw [sigAfter_mod N]
  generalize sigAfter (N % 181) = g at h1 h2 ⊢
  generalize N % 181 = k at h1 h2 ⊢
  have c1 : (((180 + k) * 2 ^ 52 : Nat) : ℚ) ≤ ((180 * g + 180 * 16 : Nat) : ℚ) := by
    exact_mod_cast h1
  have c2 : ((180 * g : Nat) : ℚ) ≤ (((180 + k) * 2 ^ 52 : Nat) : ℚ) := by
    exact_mod_cast h2
  push_cast at c1 c2
  constructor
  · rw [le_div_iff₀ (by positivity)]
    norm_num at c1 ⊢
    linarith
  · rw [div_le_iff₀ (by positivity)]
    norm_num at c2 ⊢
    linarith

/-- C1 (claim as stated, refuted): the 180 rounded additions of `1.0 / 180.0` to
`1.0` give `2 - 2 ^ (-48)`, which is below `2.0`, so after 180 invocations `draw` has
not wrapped and `s` is not `1 + (180 mod 180) * (1/180) = 1`. -/
theorem C1_no_wrap_at_180_counterexample :
    (draw^[180] World.fresh).s = 2 - 1 / 2 ^ 48
      ∧ ¬ ((draw^[180] World.fresh).s = 1 + ((180 % 180 : Nat) : ℚ) * (1 / 180)) := by
  have h : (draw^[180] World.fresh).s = 2 - 1 / 2 ^ 48 := by
    rw [iterate_draw_s, sigAfter_180]
    norm_num
  refine ⟨h, ?_⟩
  rw [h]
  norm_num

/-- C1 (amended): after `N` invocations of `draw` in a fresh process, `s` (a binary64
double advanced by the double nearest `1/180`) is the value reached after
`N mod 181` invocations; it is at most `1 + (N mod 181) * (1/180)` and below it by at
most `2 ^ (-48)`; it lies in `[1, 2)`. The wrap to 1 happens on invocation 181: after
180 invocations `s = 2 - 2 ^ (-48)`. -/
theorem C1_scale_after_draws (N : Nat) :
    (draw^[N] World.fresh).s = (draw^[N % 181] World.fresh).s
      ∧ 1 + ((N % 181 : Nat) : ℚ) * (1 / 180) - 1 / 2 ^ 48 ≤ (draw^[N] World.fresh).s
      ∧ (draw^[N] World.fresh).s ≤ 1 + ((N % 181 : Nat) : ℚ) * (1 / 180)
      ∧ 1 ≤ (draw^[N] World.fresh).s ∧ (draw^[N] World.fresh).s < 2 * 1
      ∧ (draw^[180] World.fresh).s = 2 - 1 / 2 ^ 48
      ∧ (draw^[181] World.fresh).s = 1 := by
  obtain ⟨b1, b2⟩ := scale_bounds N
  obtain ⟨r1, r2⟩ := sigAfter_range N
  have c1 : ((2 ^ 52 : Nat) : ℚ) ≤ (sigAfter N : ℚ) := by exact_mod_cast r1
  have c2 : (sigAfter N : ℚ) < ((2 ^ 53 : Nat) : ℚ) := by exact_mod_cast r2
  refine ⟨?_, ?_, ?_, ?_, ?_, ?_, ?_⟩
  · rw [iterate_draw_s, iterate_draw_s, ← sigAfter_mod]
  · rw [iterate_draw_s]
    exact b1
  · rw [iterate_draw_s]
    exact b2
  · rw [iterate_draw_s, le_div_iff₀ (by positivity)]
    norm_num at c1 ⊢
    exact c1
  · rw [iterate_draw_s, div_lt_iff₀ (by positivity)]
    norm_num at c2 ⊢
    exact c2
  · rw [iterate_draw_s, sigAfter_180]
    norm_num
  · rw [iterate_draw_s, sigAfter_181]
    norm_num

/-! ### Presentation loop -/

theorem presentationLoop_snoc (bits texture : Nat) (ticks : List Tick) (t : Tick) (w : World) :
    presentationLoop bits texture (ticks ++ [t]) w
      = tickBody bits texture (presentationLoop bits texture ticks w) t := by
  simp [presentationLoop, List.foldl_append]

theorem tickBody_frames (bits texture : Nat) (st : LoopState) (t : Tick) :
    (tickBody bits texture st t).frames = (st.frames + 1) % 2 ^ bits := rfl

theorem presentationLoop_frames (bits texture : Nat) (ticks : List Tick) (w : World) :
    (presentationLoop bits texture ticks w).frames = ticks.length % 2 ^ bits := by
  induction ticks using List.reverseRecOn with
  | nil =>
    have h : 0 < 2 ^ bits := by positivity
    simp [presentationLoop, Nat.mod_eq_of_lt h]
  | append_singleton l t ih =>
    rw [presentationLoop_snoc, tickBody_frames, ih, List.length_append, List.length_singleton,
      Nat.mod_add_mod]

/-- C2: after the presentation loop has run for the `k` delivered ticks, `frames`
holds `k` as an `unsigned long` (`k mod 2 ^ bits`), which is `k` itself for every
`k` in the range of the type, whatever `makeCairoCurrent` and `makeCurrent` returned
at each tick. -/
theorem C2_frames_eq_ticks (bits texture : Nat) (ticks : List Tick) (w : World) :
    (presentationLoop bits texture ticks w).frames = ticks.length % 2 ^ bits
      ∧ (ticks.length < 2 ^ bits →
          (presentationLoop bits texture ticks w).frames = ticks.length) := by
  refine ⟨presentationLoop_frames bits texture ticks w, fun h => ?_⟩
  rw [presentationLoop_frames, Nat.mod_eq_of_lt h]

theorem C2_frames_eq_ticks_witness :
    (presentationLoop 64 0
        [⟨true, true, 3, 4⟩, ⟨false, true, 0, 5⟩, ⟨true, false, 2, 0⟩, ⟨false, false, 0, 0⟩]
        World.fresh).frames = 4 :=
  (C2_frames_eq_ticks 64 0
    [⟨true, true, 3, 4⟩, ⟨false, true, 0, 5⟩, ⟨true, false, 2, 0⟩, ⟨false, false, 0, 0⟩]
    World.fresh).2 (by norm_num)

/-! ### Statistics lines -/

theorem udiv_pos (a b : Nat) (h : 0 < b) : udiv a b = some (a / b) := by
  simp [udiv, Nat.pos_iff_ne_zero.mp h]

theorem udiv_zero (a : Nat) : udiv a 0 = none := by
  simp [udiv]

/-- C7: with `f > 0` frames, totals `c` and `p`, and `d` elapsed milliseconds: if
`d >= 1000` the three lines print `f / (d / 1000)`, `c / f` and `p / f` (unsigned
integer divisions); if `d < 1000` the FPS divisor `d / 1000` is zero and the
division is executed with it. -/
theorem C7_report_values (f c p d : Nat) (w : World) (hf : 0 < f) :
    (1000 ≤ d →
        report f c p d w
          = .ok (((w.emit (Event.printFps (f / (d / 1000)))).emit
              (Event.printCairoAvg (c / f))).emit (Event.printSdlAvg (p / f))))
      ∧ (d < 1000 → d / 1000 = 0 ∧ report f c p d w = .error w) := by
  constructor
  · intro hd
    have h1 : 0 < d / 1000 := Nat.div_pos hd (by norm_num)
    simp [report, udiv_pos _ _ h1, udiv_pos _ _ hf]
  · intro hd
    have h0 : d / 1000 = 0 := Nat.div_eq_of_lt hd
    simp [report, h0, udiv_zero]

theorem C7_report_values_witness :
    report 120 960 240 2500 World.fresh
      = .ok (((World.fresh.emit (Event.printFps (120 / (2500 / 1000)))).emit
          (Event.printCairoAvg (960 / 120))).emit (Event.printSdlAvg (240 / 120))) :=
  (C7_report_values 120 960 240 2500 World.fresh (by norm_num)).1 (by norm_num)

/-! ### Exit status of `main` -/

theorem selectSurface_none (method : String) (h1 : method ≠ "image") (h2 : method ≠ "gl")
    (h3 : method ≠ "gl_texture") : selectSurface method = none := by
  simp [selectSurface, h1, h2, h3]

/-- C4 (claim as stated, refuted): with two arguments and the mode "bogus", a run in
which `window.init` fails returns 2, not 4. -/
theorem C4_unknown_mode_counterexample :
    (main 64 (fun _ => 10)
        { initOk := false, setupCurrent := true, deviceOk := true, textureName := 0,
          surfaceOk := true, warmupMs := 0, ticks := some [], elapsedMs := 0 }
        ["bench", "10", "bogus"]).status = some 2 := by
  simp [main, Outcome.status]

/-- C4 (amended): with two arguments and a mode other than "image", "gl" and
"gl_texture", `main` returns 2 if `window.init` fails, else 3 if device creation
fails, else 4; in each case the run consists of nothing but window initialisation,
GL set-up, device creation and one fatal message: no surface constructor is called
and `draw` is never invoked (so neither a warm-up iteration nor a tick runs). -/
theorem C4_unknown_mode (bits : Nat) (atoi : String → Int) (env : Env)
    (prog num mode : String)
    (h1 : mode ≠ "image") (h2 : mode ≠ "gl") (h3 : mode ≠ "gl_texture") :
    (main bits atoi env [prog, num, mode]).status
        = some (if env.initOk = false then 2 else if env.deviceOk = false then 3 else 4)
      ∧ (∀ e ∈ (main bits atoi env [prog, num, mode]).world.trace,
          e = Event.windowInit ∨ e = Event.glSetup ∨ e = Event.deviceCreate
            ∨ ∃ c, e = Event.fatal c)
      ∧ (∀ k, Event.surfaceCreate k ∉ (main bits atoi env [prog, num, mode]).world.trace)
      ∧ drawCount (main bits atoi env [prog, num, mode]).world.trace = 0 := by
  have hs := selectSurface_none mode h1 h2 h3
  cases hi : env.initOk <;> cases hd : env.deviceOk <;> cases hc : env.setupCurrent <;>
    simp [main, hi, hd, hc, hs, Outcome.status, Outcome.world, World.emit, World.fresh,
      drawCount]

theorem C4_unknown_mode_witness :
    (main 64 (fun _ => 10)
        { initOk := true, setupCurrent := true, deviceOk := true, textureName := 0,
          surfaceOk := true, warmupMs := 0, ticks := some [], elapsedMs := 0 }
        ["bench", "10", "bogus"]).status = some 4 :=
  (C4_unknown_mode 64 (fun _ => 10)
    { initOk := true, setupCurrent := true, deviceOk := true, textureName := 0,
      surfaceOk := true, warmupMs := 0, ticks := some [], elapsedMs := 0 }
    "bench" "10" "bogus" (by decide) (by decide) (by decide)).1

theorem main_wrong_argc (bits : Nat) (atoi : String → Int) (env : Env) (argv : List String)
    (h : argv.length ≠ 3) :
    main bits atoi env argv = .exit 1 (World.fresh.emit Event.usage) := by
  simp [main, h]

theorem length_three {α : Type} (l : List α) (h : l.length = 3) :
    ∃ a b c, l = [a, b, c] := by
  match l, h with
  | [a, b, c], _ => exact ⟨a, b, c, rfl⟩

theorem main_status_zero (bits : Nat) (atoi : String → Int) (env : Env) (argv : List String)
    (h : (main bits atoi env argv).status = some 0) :
    argv.length = 3 ∧ env.initOk = true ∧ env.deviceOk = true
      ∧ (∃ kind, selectSurface (argv.getD 2 "") = some kind) ∧ env.surfaceOk = true
      ∧ ∃ ticks, env.ticks = some ticks := by
  by_cases hl : argv.length = 3
  swap
  · simp [main, hl, Outcome.status] at h
  obtain ⟨a, b, c, rfl⟩ := length_three argv hl
  cases hi : env.initOk
  · simp [main, hi, Outcome.status] at h
  cases hd : env.deviceOk
  · simp [main, hi, hd, Outcome.status] at h
  cases hm : selectSurface c with
  | none => simp [main, hi, hd, hm, Outcome.status] at h
  | some kind =>
    cases hs : env.surfaceOk
    · simp [main, hi, hd, hm, hs, Outcome.status] at h
    cases ht : env.ticks with
    | none => simp [main, hi, hd, hm, hs, ht, Outcome.status] at h
    | some ticks =>
      refine ⟨hl, rfl, rfl, ⟨kind, ?_⟩, rfl, ⟨ticks, rfl⟩⟩
      simpa using hm

/-- C5: the exit status of `main` follows the table. With an argument count other
than two positional arguments it returns 1 having done nothing but print the usage
text; otherwise 2 when `window.init` fails; otherwise 3 when the device is null;
otherwise, for a recognised mode, 5 when the surface is null; and it returns 0 only
if none of these happened, the mode was recognised and `window.main` returned. -/
theorem C5_exit_status (bits : Nat) (atoi : String → Int) (env : Env) (argv : List String) :
    (argv.length ≠ 3 →
        main bits atoi env argv = .exit 1 (World.fresh.emit Event.usage))
      ∧ (argv.length = 3 → env.initOk = false →
          (main bits atoi env argv).status = some 2)
      ∧ (argv.length = 3 → env.initOk = true → env.deviceOk = false →
          (main bits atoi env argv).status = some 3)
      ∧ (argv.length = 3 → env.initOk = true → env.deviceOk = true →
          (∃ kind, selectSurface (argv.getD 2 "") = some kind) → env.surfaceOk = false →
          (main bits atoi env argv).status = some 5)
      ∧ ((main bits atoi env argv).status = some 0 →
          argv.length = 3 ∧ env.initOk = true ∧ env.deviceOk = true
            ∧ (∃ kind, selectSurface (argv.getD 2 "") = some kind) ∧ env.surfaceOk = true
            ∧ ∃ ticks, env.ticks = some ticks) := by
  refine ⟨main_wrong_argc bits atoi env argv, ?_, ?_, ?_, main_status_zero bits atoi env argv⟩
  · intro hl hi
    simp [main, hl, hi, Outcome.status]
  · intro hl hi hd
    simp [main, hl, hi, hd, Outcome.status]
  · rintro hl hi hd ⟨kind, hm⟩ hs
    obtain ⟨a, b, c, rfl⟩ := length_three argv hl
    simp only [List.getD_cons_succ, List.getD_cons_zero] at hm
    simp [main, hi, hd, hm, hs, Outcome.status]

theorem C5_exit_status_witness :
    (main 64 (fun _ => 10)
        { initOk := true, setupCurrent := false, deviceOk := true, textureName := 1,
          surfaceOk := false, warmupMs := 0, ticks := some [], elapsedMs := 0 }
        ["bench", "10", "gl_texture"]).status = some 5 :=
  (C5_exit_status 64 (fun _ => 10)
    { initOk := true, setupCurrent := false, deviceOk := true, textureName := 1,
      surfaceOk := false, warmupMs := 0, ticks := some [], elapsedMs := 0 }
    ["bench", "10", "gl_texture"]).2.2.2.1 rfl rfl rfl ⟨Surface.glTexture, by decide⟩ rfl

/-! ### Warm-up loop: recurrences -/

theorem warmupPrefix_succ (n : Int) (k : Nat) (w : World) :
    warmupPrefix n (k + 1) w = warmupBody n (warmupPrefix n k w) (k : Int) := by
  simp [warmupPrefix, List.range_succ, List.foldl_append]

theorem plusIndices_append (t u : List Event) :
    plusIndices (t ++ u) = plusIndices t ++ plusIndices u := by
  simp [plusIndices, List.filterMap_append]

theorem warmupBody_marks (n : Int) (st : WarmState) (i : Int) :
    plusIndices (warmupBody n st i).world.trace
      = if pct i n ≥ (st.last_tick : ℚ) + 10 then plusIndices st.world.trace ++ [i]
        else plusIndices st.world.trace := by
  by_cases h : pct i n ≥ (st.last_tick : ℚ) + 10
  · simp [warmupBody, h, World.emit, draw, plusIndices_append, plusIndices]
  · simp [warmupBody, h, draw, plusIndices_append, plusIndices]

theorem warmupBody_last_tick (n : Int) (st : WarmState) (i : Int) :
    (warmupBody n st i).last_tick
      = if pct i n ≥ (st.last_tick : ℚ) + 10 then truncToInt (pct i n) else st.last_tick := by
  by_cases h : pct i n ≥ (st.last_tick : ℚ) + 10
  · simp [warmupBody, h]
  · simp [warmupBody, h]

theorem marksUpTo_zero (n : Int) : marksUpTo n 0 = [] := rfl

theorem lastTickUpTo_zero (n : Int) : lastTickUpTo n 0 = 0 := rfl

theorem marksUpTo_succ (n : Int) (k : Nat) :
    marksUpTo n (k + 1)
      = if pct k n ≥ (lastTickUpTo n k : ℚ) + 10 then marksUpTo n k ++ [(k : Int)]
        else marksUpTo n k := by
  simp only [marksUpTo, lastTickUpTo, warmupPrefix_succ, warmupBody_marks]

theorem lastTickUpTo_succ (n : Int) (k : Nat) :
    lastTickUpTo n (k + 1)
      = if pct k n ≥ (lastTickUpTo n k : ℚ) + 10 then truncToInt (pct k n)
        else lastTickUpTo n k := by
  simp only [lastTickUpTo, warmupPrefix_succ, warmupBody_last_tick]

theorem warmupMarks_eq (n : Int) : warmupMarks n = marksUpTo n n.toNat := rfl

/-- The "+" printed by the warm-up loop do not depend on the world it starts in. -/
theorem warmupPrefix_marks (n : Int) (k : Nat) (w : World) :
    plusIndices (warmupPrefix n k w).world.trace = plusIndices w.trace ++ marksUpTo n k
      ∧ (warmupPrefix n k w).last_tick = lastTickUpTo n k := by
  induction k with
  | zero => simp [warmupPrefix, marksUpTo_zero, lastTickUpTo_zero]
  | succ k ih =>
    rw [warmupPrefix_succ, warmupBody_marks, warmupBody_last_tick, marksUpTo_succ,
      lastTickUpTo_succ, ih.1, ih.2]
    split
    · exact ⟨by rw [List.append_assoc], rfl⟩
    · exact ⟨rfl, rfl⟩

theorem warmupLoop_marks (n : Int) (w : World) :
    plusIndices (warmupLoop n w).world.trace = plusIndices w.trace ++ warmupMarks n :=
  (warmupPrefix_marks n n.toNat w).1

/-! ### Warm-up loop: facts about `pct` and the truncation -/

theorem pct_nonneg (i n : Int) (hi : 0 ≤ i) (hn : 0 < n) : 0 ≤ pct i n := by
  have h1 : (0 : ℚ) ≤ (i : ℚ) := by exact_mod_cast hi
  have h2 : (0 : ℚ) < (n : ℚ) := by exact_mod_cast hn
  unfold pct
  positivity

theorem pct_lt_hundred (i n : Int) (hi : i < n) (hn : 0 < n) : pct i n < 100 := by
  have h1 : (i : ℚ) < (n : ℚ) := by exact_mod_cast hi
  have h2 : (0 : ℚ) < (n : ℚ) := by exact_mod_cast hn
  have h3 : (i : ℚ) / (n : ℚ) < 1 := (div_lt_one h2).mpr h1
  unfold pct
  linarith

theorem truncToInt_of_nonneg (q : ℚ) (h : 0 ≤ q) : truncToInt q = ⌊q⌋ := by
  simp [truncToInt, h]

theorem le_truncToInt (L : Int) (q : ℚ) (h : (L : ℚ) ≤ q) : L ≤ truncToInt q := by
  unfold truncToInt
  split
  · exact Int.le_floor.mpr h
  · have h1 : (L : ℚ) ≤ ((⌈q⌉ : Int) : ℚ) := le_trans h (Int.le_ceil q)
    exact_mod_cast h1

theorem truncToInt_lt (q : ℚ) (b : Int) (h0 : 0 ≤ q) (h : q < (b : ℚ)) : truncToInt q < b := by
  rw [truncToInt_of_nonneg q h0]
  exact Int.floor_lt.mpr h

/-- Each "+" raises `last_tick` by at least 10. -/
theorem warmupBody_last_tick_rises (n : Int) (st : WarmState) (i : Int)
    (h : pct i n ≥ (st.last_tick : ℚ) + 10) :
    st.last_tick + 10 ≤ (warmupBody n st i).last_tick := by
  rw [warmupBody_last_tick, if_pos h]
  apply le_truncToInt
  push_cast
  exact h

/-! ### Warm-up loop: the number of "+" -/

theorem marks_bound (n : Int) (hn : 0 < n) (k : Nat) (hk : (k : Int) ≤ n) :
    10 * ((marksUpTo n k).length : Int) ≤ lastTickUpTo n k ∧ lastTickUpTo n k ≤ 99 := by
  induction k with
  | zero => simp [marksUpTo_zero, lastTickUpTo_zero]
  | succ k ih =>
    have hk' : (k : Int) < n := by push_cast at hk; omega
    obtain ⟨h1, h2⟩ := ih (le_of_lt hk')
    rw [marksUpTo_succ, lastTickUpTo_succ]
    by_cases hg : pct k n ≥ (lastTickUpTo n k : ℚ) + 10
    · rw [if_pos hg, if_pos hg]
      have h3 : lastTickUpTo n k + 10 ≤ truncToInt (pct k n) := by
        apply le_truncToInt
        push_cast
        exact hg
      have h4 : truncToInt (pct k n) < 100 :=
        truncToInt_lt _ 100 (pct_nonneg k n (Int.natCast_nonneg k) hn)
          (by exact_mod_cast pct_lt_hundred k n hk' hn)
      constructor
      · rw [List.length_append, List.length_singleton]
        push_cast
        omega
      · omega
    · rw [if_neg hg, if_neg hg]
      exact ⟨h1, h2⟩

theorem warmupMarks_nonpos (n : Int) (hn : n ≤ 0) : warmupMarks n = [] := by
  rw [warmupMarks_eq, Int.toNat_eq_zero.mpr hn, marksUpTo_zero]

theorem warmupMarks_length_le (n : Int) : (warmupMarks n).length ≤ 9 := by
  by_cases hn : 0 < n
  · have h := (marks_bound n hn n.toNat (by rw [Int.toNat_of_nonneg hn.le]))
    rw [warmupMarks_eq]
    omega
  · rw [warmupMarks_nonpos n (not_lt.mp hn)]
    simp

/-! ### Warm-up loop: iteration counts that are multiples of ten -/

theorem pct_ten_mul (i : Int) (m : Nat) (hm : 0 < m) :
    pct i (10 * (m : Int)) = 10 * (i : ℚ) / (m : ℚ) := by
  have h : (m : ℚ) ≠ 0 := by exact_mod_cast hm.ne'
  unfold pct
  push_cast
  field_simp
  ring

theorem guard_ten_mul (i L : Int) (m : Nat) (hm : 0 < m) :
    pct i (10 * (m : Int)) ≥ (L : ℚ) + 10 ↔ (L + 10) * (m : Int) ≤ 10 * i := by
  have h : (0 : ℚ) < (m : ℚ) := by exact_mod_cast hm
  rw [pct_ten_mul i m hm, ge_iff_le, le_div_iff₀ h]
  constructor
  · intro h1
    have h2 : (((L + 10) * (m : Int) : Int) : ℚ) ≤ ((10 * i : Int) : ℚ) := by
      push_cast
      exact h1
    exact_mod_cast h2
  · intro h1
    have h2 : (((L + 10) * (m : Int) : Int) : ℚ) ≤ ((10 * i : Int) : ℚ) := by
      exact_mod_cast h1
    push_cast at h2
    exact h2

theorem marks_ten_mul (m : Nat) (hm : 0 < m) (k : Nat) (hk : k + 1 ≤ 10 * m) :
    lastTickUpTo (10 * (m : Int)) (k + 1) = 10 * ((k / m : Nat) : Int)
      ∧ (marksUpTo (10 * (m : Int)) (k + 1)).length = k / m := by
  induction k with
  | zero =>
    have hg : ¬ (pct ((0 : Nat) : Int) (10 * (m : Int))
        ≥ ((lastTickUpTo (10 * (m : Int)) 0 : Int) : ℚ) + 10) := by
      rw [guard_ten_mul _ _ m hm, lastTickUpTo_zero]
      have : (0 : Int) < (m : Int) := by exact_mod_cast hm
      push_cast
      omega
    rw [marksUpTo_succ, lastTickUpTo_succ, if_neg hg, if_neg hg]
    simp [marksUpTo_zero, lastTickUpTo_zero]
  | succ k ih =>
    obtain ⟨h1, h2⟩ := ih (by omega)
    have hq1 : k / m * m ≤ k := Nat.div_mul_le_self k m
    have hq2 : k < (k / m + 1) * m := by
      rw [Nat.mul_comm]
      exact Nat.lt_mul_div_succ k hm
    rw [marksUpTo_succ, lastTickUpTo_succ, h1]
    generalize k / m = q at h1 h2 hq1 hq2 ⊢
    by_cases hg : (q + 1) * m ≤ k + 1
    · have hkm : k + 1 = (q + 1) * m := by omega
      have hdiv : (k + 1) / m = q + 1 := by
        rw [hkm, Nat.mul_div_cancel _ hm]
      have hguard : pct ((k + 1 : Nat) : Int) (10 * (m : Int))
          ≥ ((10 * (q : Int) : Int) : ℚ) + 10 := by
        rw [guard_ten_mul _ _ m hm]
        have : (((q + 1) * m : Nat) : Int) ≤ ((k + 1 : Nat) : Int) := by exact_mod_cast hg
        push_cast at this ⊢
        linarith
      have hval : truncToInt (pct ((k + 1 : Nat) : Int) (10 * (m : Int)))
          = 10 * ((q + 1 : Nat) : Int) := by
        have hp : pct ((k + 1 : Nat) : Int) (10 * (m : Int))
            = ((10 * ((q + 1 : Nat) : Int) : Int) : ℚ) := by
          rw [pct_ten_mul _ m hm]
          have hmq : (m : ℚ) ≠ 0 := by exact_mod_cast hm.ne'
          have hc : (((k + 1 : Nat) : Int) : ℚ) = ((q : ℚ) + 1) * (m : ℚ) := by
            have : ((k + 1 : Nat) : ℚ) = (((q + 1) * m : Nat) : ℚ) := by rw [← hkm]
            push_cast at this ⊢
            linarith
          rw [hc]
          push_cast
          field_simp
          ring
        rw [hp, truncToInt_of_nonneg _ (by positivity), Int.floor_intCast]
      rw [if_pos hguard, if_pos hguard, hval, List.length_append, List.length_singleton, h2, hdiv]
      exact ⟨rfl, rfl⟩
    · have hlt : k + 1 < (q + 1) * m := not_le.mp hg
      have hdiv : (k + 1) / m = q := Nat.div_eq_of_lt_le (by omega) hlt
      have hguard : ¬ (pct ((k + 1 : Nat) : Int) (10 * (m : Int))
          ≥ ((10 * (q : Int) : Int) : ℚ) + 10) := by
        rw [guard_ten_mul _ _ m hm]
        have : ((k + 1 : Nat) : Int) < (((q + 1) * m : Nat) : Int) := by exact_mod_cast hlt
        push_cast at this ⊢
        linarith
      rw [if_neg hguard, if_neg hguard, hdiv]
      exact ⟨rfl, h2⟩

theorem warmupMarks_ten_mul (m : Int) (hm : 0 < m) : (warmupMarks (10 * m)).length = 9 := by
  obtain ⟨c, rfl⟩ := Int.eq_ofNat_of_zero_le hm.le
  have hc : 0 < c := by exact_mod_cast hm
  have hn : (10 * (c : Int)).toNat = (10 * c - 1) + 1 := by omega
  rw [warmupMarks_eq, hn, (marks_ten_mul c hc (10 * c - 1) (by omega)).2]
  exact Nat.div_eq_of_lt_le (by omega) (by omega)

/-- C10: whatever the iteration count (also `n <= 0` and `n < 10`), the warm-up loop
prints at most 9 "+"; it prints exactly 9 for `n = 10` and for every positive
multiple of 10. The reason: `pct` stays strictly below 100 for `i < n`, and every
"+" raises the integer `last_tick` by at least 10. -/
theorem C10_at_most_nine_marks :
    (∀ n : Int, (warmupMarks n).length ≤ 9)
      ∧ (warmupMarks 10).length = 9
      ∧ (∀ m : Int, 0 < m → (warmupMarks (10 * m)).length = 9)
      ∧ (∀ n i : Int, 0 < n → i < n → pct i n < 100)
      ∧ (∀ (n : Int) (st : WarmState) (i : Int), pct i n ≥ (st.last_tick : ℚ) + 10 →
          st.last_tick + 10 ≤ (warmupBody n st i).last_tick) :=
  ⟨warmupMarks_length_le, warmupMarks_ten_mul 1 (by norm_num), warmupMarks_ten_mul,
    fun n i hn hi => pct_lt_hundred i n hi hn, warmupBody_last_tick_rises⟩

theorem C10_at_most_nine_marks_witness : (warmupMarks (10 * 25)).length = 9 :=
  C10_at_most_nine_marks.2.2.1 25 (by norm_num)

/-! ### Warm-up loop: one "+" per decile -/

theorem ten_mul_decile_le (i n : Int) : 10 * decile i n ≤ truncToInt (pct i n) := by
  apply le_truncToInt
  have h := Int.floor_le (pct i n / 10)
  unfold decile
  push_cast
  linarith

theorem decile_gt_of_guard (i n L d : Int) (hd : 10 * d ≤ L)
    (hg : pct i n ≥ (L : ℚ) + 10) : d < decile i n := by
  have h1 : ((10 * d : Int) : ℚ) ≤ (L : ℚ) := by exact_mod_cast hd
  have h2 : ((d + 1 : Int) : ℚ) ≤ pct i n / 10 := by
    push_cast at h1 ⊢
    linarith
  have h3 : d + 1 ≤ decile i n := Int.le_floor.mpr h2
  omega

theorem marks_deciles (n : Int) (k : Nat) :
    (marksUpTo n k).Pairwise (fun i j => decile i n < decile j n)
      ∧ ∀ j ∈ marksUpTo n k, 10 * decile j n ≤ lastTickUpTo n k := by
  induction k with
  | zero => simp [marksUpTo_zero]
  | succ k ih =>
    obtain ⟨h1, h2⟩ := ih
    rw [marksUpTo_succ, lastTickUpTo_succ]
    by_cases hg : pct k n ≥ (lastTickUpTo n k : ℚ) + 10
    · rw [if_pos hg, if_pos hg]
      have h3 : lastTickUpTo n k + 10 ≤ truncToInt (pct k n) := by
        apply le_truncToInt
        push_cast
        exact hg
      constructor
      · rw [List.pairwise_append]
        refine ⟨h1, List.pairwise_singleton _ _, ?_⟩
        intro a ha b hb
        rw [List.mem_singleton] at hb
        subst hb
        exact decile_gt_of_guard _ n _ _ (h2 a ha) hg
      · intro j hj
        rw [List.mem_append, List.mem_singleton] at hj
        rcases hj with hj | rfl
        · have := h2 j hj
          omega
        · exact ten_mul_decile_le _ n
    · rw [if_neg hg, if_neg hg]
      exact ⟨h1, h2⟩

/-- C3: for every iteration count `n` (in particular every `n >= 10`), no two
iterations that print a "+" have the same `floor(pct / 10)`, and at most 10 "+" are
printed in total. -/
theorem C3_one_mark_per_decile (n : Int) :
    (warmupMarks n).Pairwise (fun i j => decile i n ≠ decile j n)
      ∧ (warmupMarks n).length ≤ 10 := by
  constructor
  · rw [warmupMarks_eq]
    exact (marks_deciles n n.toNat).1.imp (fun hlt => ne_of_lt hlt)
  · have := warmupMarks_length_le n
    omega

/-! ### Warm-up loop: which iterations print -/

theorem marks_range (n : Int) (k : Nat) : ∀ j ∈ marksUpTo n k, 0 ≤ j ∧ j < (k : Int) := by
  induction k with
  | zero => simp [marksUpTo_zero]
  | succ k ih =>
    intro j hj
    rw [marksUpTo_succ] at hj
    have hstep : j ∈ marksUpTo n k ∨ j = (k : Int) := by
      split at hj
      · rw [List.mem_append, List.mem_singleton] at hj
        exact hj
      · exact Or.inl hj
    rcases hstep with h | rfl
    · have := ih j h
      push_cast
      omega
    · push_cast
      omega

theorem marks_sorted (n : Int) (k : Nat) : (marksUpTo n k).Pairwise (fun i j => i < j) := by
  induction k with
  | zero => simp [marksUpTo_zero]
  | succ k ih =>
    rw [marksUpTo_succ]
    split
    · rw [List.pairwise_append]
      refine ⟨ih, List.pairwise_singleton _ _, ?_⟩
      intro a ha b hb
      rw [List.mem_singleton] at hb
      subst hb
      exact (marks_range n k a ha).2
    · exact ih

theorem lastTickUpTo_eq (n : Int) (k : Nat) :
    lastTickUpTo n k = lastTickOf n (marksUpTo n k) := by
  induction k with
  | zero => simp [marksUpTo_zero, lastTickUpTo_zero, lastTickOf]
  | succ k ih =>
    rw [marksUpTo_succ, lastTickUpTo_succ]
    split
    · simp [lastTickOf]
    · exact ih

theorem marks_filter (n : Int) (k d : Nat) :
    (marksUpTo n (k + d)).filter (fun j => decide (j < (k : Int))) = marksUpTo n k := by
  induction d with
  | zero =>
    rw [Nat.add_zero, List.filter_eq_self]
    intro j hj
    simpa using (marks_range n k j hj).2
  | succ d ih =>
    rw [← Nat.add_assoc, marksUpTo_succ]
    split
    · rw [List.filter_append, ih]
      have : ¬ (((k + d : Nat) : Int) < (k : Int)) := by push_cast; omega
      simp [List.filter_cons, this]
    · exact ih

theorem mem_marks_iff (n : Int) (k d : Nat) :
    (k : Int) ∈ marksUpTo n (k + 1 + d) ↔ pct k n ≥ (lastTickUpTo n k : ℚ) + 10 := by
  induction d with
  | zero =>
    rw [Nat.add_zero, marksUpTo_succ]
    have hk : (k : Int) ∉ marksUpTo n k := fun h => lt_irrefl _ (marks_range n k _ h).2
    split
    · rename_i hg
      simp [hg]
    · rename_i hg
      simp [hg, hk]
  | succ d ih =>
    rw [← Nat.add_assoc, marksUpTo_succ, ← ih]
    split
    · rw [List.mem_append, List.mem_singleton]
      have hne : (k : Int) ≠ ((k + 1 + d : Nat) : Int) := by push_cast; omega
      constructor
      · intro h
        rcases h with h | h
        · exact h
        · exact absurd h hne
      · intro h
        exact Or.inl h
    · rfl

theorem warmupMarks_nodup (n : Int) : (warmupMarks n).Nodup := by
  rw [warmupMarks_eq]
  exact (marks_sorted n n.toNat).imp (fun h => ne_of_lt h)

theorem marks_step_skip (n : Int) (k : Nat) (L : Int) (M : List Int)
    (hM : marksUpTo n k = M) (hL : lastTickUpTo n k = L)
    (hg : ¬ (pct k n ≥ (L : ℚ) + 10)) :
    marksUpTo n (k + 1) = M ∧ lastTickUpTo n (k + 1) = L := by
  rw [marksUpTo_succ, lastTickUpTo_succ, hL, if_neg hg, if_neg hg, hM]
  exact ⟨rfl, rfl⟩

theorem marks_step_print (n : Int) (k : Nat) (L T : Int) (M : List Int)
    (hM : marksUpTo n k = M) (hL : lastTickUpTo n k = L)
    (hg : pct k n ≥ (L : ℚ) + 10) (hT : truncToInt (pct k n) = T) :
    marksUpTo n (k + 1) = M ++ [(k : Int)] ∧ lastTickUpTo n (k + 1) = T := by
  rw [marksUpTo_succ, lastTickUpTo_succ, hL, if_pos hg, if_pos hg, hM, hT]
  exact ⟨rfl, rfl⟩

theorem marks_eleven_three : marksUpTo 11 3 = [2] ∧ lastTickUpTo 11 3 = 18 := by
  have m1 := marks_step_skip 11 0 0 [] rfl rfl (by norm_num [pct])
  have m2 := marks_step_skip 11 1 0 [] m1.1 m1.2 (by norm_num [pct])
  have t2 : truncToInt (pct ((2 : Nat) : Int) 11) = 18 := by
    rw [truncToInt_of_nonneg _ (by norm_num [pct]), Int.floor_eq_iff]
    norm_num [pct]
  exact marks_step_print 11 2 0 18 [] m2.1 m2.2 (by norm_num [pct]) t2

/-- C8 (claim as stated, refuted): with 11 iterations, iteration 3 has
`floor(pct / 10) = 2`, above the decile `1` of the last "+" (printed by iteration 2
at `pct = 18.18..`), yet it prints nothing, because `27.27.. < 18 + 10`. -/
theorem C8_decile_rule_counterexample :
    ¬ ((3 : Int) ∈ warmupMarks 11
        ↔ decile 3 11
            > specLastDecile 11 ((warmupMarks 11).filter (fun j => decide (j < 3)))) := by
  have hf : (warmupMarks 11).filter (fun j => decide (j < 3)) = [2] := by
    have := marks_filter 11 3 8
    rw [marks_eleven_three.1] at this
    exact this
  have hmem : (3 : Int) ∉ warmupMarks 11 := by
    have h := mem_marks_iff 11 3 7
    rw [marks_eleven_three.2] at h
    intro hin
    have hg := h.mp hin
    norm_num [pct] at hg
  have hd3 : decile 3 11 = 2 := by
    unfold decile
    rw [Int.floor_eq_iff]
    norm_num [pct]
  have hd2 : decile 2 11 = 1 := by
    unfold decile
    rw [Int.floor_eq_iff]
    norm_num [pct]
  rw [hf]
  intro h
  apply hmem
  apply h.mpr
  simp [specLastDecile, hd3, hd2]

/-- C8 (amended): for `0 <= i < n`, iteration `i` prints a "+" exactly when
`pct >= last_tick + 10`, where `last_tick` is `pct` truncated to an integer at the
last iteration before `i` that printed (0 if none did). Whenever it prints,
`floor(pct / 10)` exceeds the decile of the last printed indicator (the converse
fails), and it prints exactly one "+". -/
theorem C8_prints_iff (n i : Int) (h0 : 0 ≤ i) (hi : i < n) :
    (i ∈ warmupMarks n
        ↔ pct i n
            ≥ (lastTickOf n ((warmupMarks n).filter (fun j => decide (j < i))) : ℚ) + 10)
      ∧ (i ∈ warmupMarks n →
          specLastDecile n ((warmupMarks n).filter (fun j => decide (j < i))) < decile i n)
      ∧ (warmupMarks n).count i ≤ 1 := by
  obtain ⟨k, rfl⟩ := Int.eq_ofNat_of_zero_le h0
  have hn : 0 < n := by omega
  obtain ⟨d, hd⟩ : ∃ d, n.toNat = k + 1 + d := ⟨n.toNat - (k + 1), by omega⟩
  have hfilter : (warmupMarks n).filter (fun j => decide (j < (k : Int))) = marksUpTo n k := by
    rw [warmupMarks_eq, hd, Nat.add_assoc]
    exact marks_filter n k (1 + d)
  have hmem : (k : Int) ∈ warmupMarks n ↔ pct k n ≥ (lastTickUpTo n k : ℚ) + 10 := by
    rw [warmupMarks_eq, hd]
    exact mem_marks_iff n k d
  refine ⟨?_, ?_, ?_⟩
  · rw [hfilter, ← lastTickUpTo_eq]
    exact hmem
  · intro hin
    have hg := hmem.mp hin
    rw [hfilter]
    unfold specLastDecile
    cases hlast : (marksUpTo n k).getLast? with
    | none =>
      have hb := (marks_bound n hn k (by omega)).1
      exact decile_gt_of_guard _ n _ 0 (by omega) hg
    | some j =>
      have hj : j ∈ marksUpTo n k := List.mem_of_getLast?_eq_some hlast
      exact decile_gt_of_guard _ n _ _ ((marks_deciles n k).2 j hj) hg
  · exact List.nodup_iff_count_le_one.mp (warmupMarks_nodup n) _

theorem C8_prints_iff_witness :
    ((4 : Int) ∈ warmupMarks 11
        ↔ pct 4 11
            ≥ (lastTickOf 11 ((warmupMarks 11).filter (fun j => decide (j < 4))) : ℚ) + 10)
      ∧ ((4 : Int) ∈ warmupMarks 11 →
          specLastDecile 11 ((warmupMarks 11).filter (fun j => decide (j < 4))) < decile 4 11)
      ∧ (warmupMarks 11).count 4 ≤ 1 :=
  C8_prints_iff 11 4 (by norm_num) (by norm_num)

/-! ### The animation state across both phases -/

theorem warmupBody_world (n : Int) (st : WarmState) (i : Int) (h : st.world.inStep) :
    (warmupBody n st i).world.inStep
      ∧ drawCount (warmupBody n st i).world.trace = drawCount st.world.trace + 1 := by
  unfold warmupBody
  split
  · exact ⟨inStep_emit _ _ (by simp) (inStep_draw _ h),
      by rw [drawCount_emit _ _ (by simp), drawCount_draw]⟩
  · exact ⟨inStep_draw _ h, drawCount_draw _⟩

theorem warmupPrefix_world (n : Int) (k : Nat) (w : World) (h : w.inStep) :
    (warmupPrefix n k w).world.inStep
      ∧ drawCount (warmupPrefix n k w).world.trace = drawCount w.trace + k := by
  induction k with
  | zero => exact ⟨h, rfl⟩
  | succ k ih =>
    rw [warmupPrefix_succ]
    obtain ⟨h1, h2⟩ := warmupBody_world n (warmupPrefix n k w) k ih.1
    exact ⟨h1, by rw [h2, ih.2, Nat.add_assoc]⟩

theorem tickBody_world (bits texture : Nat) (st : LoopState) (t : Tick) (h : st.world.inStep) :
    (tickBody bits texture st t).world.inStep
      ∧ drawCount (tickBody bits texture st t).world.trace
          = drawCount st.world.trace + (if t.cairoCurrent = true then 1 else 0) := by
  cases hc : t.cairoCurrent <;> cases hm : t.current
  · have e : (tickBody bits texture st t).world = st.world := by
      simp [tickBody, hc, hm]
    rw [e]
    exact ⟨h, by simp⟩
  · have e : (tickBody bits texture st t).world
        = st.world.emit (Event.composite texture) := by
      simp [tickBody, hc, hm]
    rw [e]
    exact ⟨inStep_emit _ _ (by simp) h, by rw [drawCount_emit _ _ (by simp)]; simp⟩
  · have e : (tickBody bits texture st t).world
        = (draw st.world).emit Event.swapBuffers := by
      simp [tickBody, hc, hm]
    rw [e]
    exact ⟨inStep_emit _ _ (by simp) (inStep_draw _ h),
      by rw [drawCount_emit _ _ (by simp), drawCount_draw]; simp⟩
  · have e : (tickBody bits texture st t).world
        = ((draw st.world).emit Event.swapBuffers).emit (Event.composite texture) := by
      simp [tickBody, hc, hm]
    rw [e]
    refine ⟨inStep_emit _ _ (by simp) (inStep_emit _ _ (by simp) (inStep_draw _ h)), ?_⟩
    rw [drawCount_emit _ _ (by simp), drawCount_emit _ _ (by simp), drawCount_draw]
    simp

/-- A tick whose `makeCairoCurrent` fails does not touch the scale factor. -/
theorem tickBody_skip_s (bits texture : Nat) (st : LoopState) (t : Tick)
    (h : t.cairoCurrent = false) :
    (tickBody bits texture st t).world.s = st.world.s := by
  cases hm : t.current <;> simp [tickBody, h, hm, World.emit]

theorem presentationLoop_world (bits texture : Nat) (ticks : List Tick) (w : World)
    (h : w.inStep) :
    (presentationLoop bits texture ticks w).world.inStep
      ∧ drawCount (presentationLoop bits texture ticks w).world.trace
          = drawCount w.trace + ticks.countP (fun t => t.cairoCurrent) := by
  induction ticks using List.reverseRecOn with
  | nil => exact ⟨h, rfl⟩
  | append_singleton l t ih =>
    rw [presentationLoop_snoc]
    obtain ⟨h1, h2⟩ := tickBody_world bits texture (presentationLoop bits texture l w) t ih.1
    refine ⟨h1, ?_⟩
    rw [h2, ih.2, List.countP_append, Nat.add_assoc]
    cases hc : t.cairoCurrent <;> simp [hc]

theorem report_world (f c p d : Nat) (w : World) (h : w.inStep) :
    ∃ w', (report f c p d w = .error w' ∨ report f c p d w = .ok w')
      ∧ w'.inStep ∧ drawCount w'.trace = drawCount w.trace := by
  unfold report
  split
  · exact ⟨w, Or.inl rfl, h, rfl⟩
  · split
    · exact ⟨_, Or.inl rfl, inStep_emit _ _ (by simp) h, drawCount_emit _ _ (by simp)⟩
    · split
      · refine ⟨_, Or.inl rfl, inStep_emit _ _ (by simp) (inStep_emit _ _ (by simp) h), ?_⟩
        rw [drawCount_emit _ _ (by simp), drawCount_emit _ _ (by simp)]
      · refine ⟨_, Or.inr rfl,
          inStep_emit _ _ (by simp) (inStep_emit _ _ (by simp) (inStep_emit _ _ (by simp) h)), ?_⟩
        rw [drawCount_emit _ _ (by simp), drawCount_emit _ _ (by simp),
          drawCount_emit _ _ (by simp)]

theorem main_run (bits : Nat) (atoi : String → Int) (env : Env) (prog num mode : String)
    (kind : Surface) (ticks : List Tick)
    (hinit : env.initOk = true) (hdev : env.deviceOk = true)
    (hmode : selectSurface mode = some kind) (hsurf : env.surfaceOk = true)
    (hticks : env.ticks = some ticks) :
    main bits atoi env [prog, num, mode]
      = match report (loopExit bits env kind (atoi num) ticks).frames
            (loopExit bits env kind (atoi num) ticks).cairoTime
            (loopExit bits env kind (atoi num) ticks).sdlTime env.elapsedMs
            (loopExit bits env kind (atoi num) ticks).world with
        | .error w => .divByZero w
        | .ok w =>
          .exit 0 (((w.emit Event.surfaceDestroy).emit Event.deviceDestroy).emit
            Event.windowDeinit) := by
  simp [main, hinit, hdev, hmode, hsurf, hticks, loopExit, warmupEntry]

theorem inStep_warmupEntry (env : Env) (kind : Surface) (n : Int) :
    (warmupEntry env kind n).inStep ∧ drawCount (warmupEntry env kind n).trace = 0 := by
  have hs : (warmupEntry env kind n).s = 1 := by
    cases hc : env.setupCurrent <;> by_cases hk : kind = Surface.glTexture <;>
      simp [warmupEntry, hc, hk, World.emit, World.fresh]
  have hd : drawCount (warmupEntry env kind n).trace = 0 := by
    cases hc : env.setupCurrent <;> by_cases hk : kind = Surface.glTexture <;>
      simp [warmupEntry, hc, hk, World.emit, World.fresh, drawCount]
  exact ⟨inStep_of_start _ hs hd, hd⟩

theorem loopExit_world (bits : Nat) (env : Env) (kind : Surface) (n : Int)
    (ticks : List Tick) :
    (loopExit bits env kind n ticks).world.inStep
      ∧ drawCount (loopExit bits env kind n ticks).world.trace
          = n.toNat + ticks.countP (fun t => t.cairoCurrent) := by
  obtain ⟨h1, h2⟩ := inStep_warmupEntry env kind n
  obtain ⟨h3, h4⟩ := warmupPrefix_world n n.toNat _ h1
  have h5 := inStep_emit _ (Event.done env.warmupMs) (by simp) h3
  obtain ⟨h6, h7⟩ := presentationLoop_world bits
    (if kind = Surface.glTexture then env.textureName else 0) ticks _ h5
  refine ⟨h6, ?_⟩
  unfold loopExit warmupLoop
  rw [h7, drawCount_emit _ _ (by simp), h4, h2, Nat.zero_add]

theorem main_world (bits : Nat) (atoi : String → Int) (env : Env) (prog num mode : String)
    (kind : Surface) (ticks : List Tick)
    (hinit : env.initOk = true) (hdev : env.deviceOk = true)
    (hmode : selectSurface mode = some kind) (hsurf : env.surfaceOk = true)
    (hticks : env.ticks = some ticks) :
    (main bits atoi env [prog, num, mode]).world.inStep
      ∧ drawCount (main bits atoi env [prog, num, mode]).world.trace
          = (atoi num).toNat + ticks.countP (fun t => t.cairoCurrent) := by
  obtain ⟨h1, h2⟩ := loopExit_world bits env kind (atoi num) ticks
  obtain ⟨w', hr, h3, h4⟩ := report_world (loopExit bits env kind (atoi num) ticks).frames
    (loopExit bits env kind (atoi num) ticks).cairoTime
    (loopExit bits env kind (atoi num) ticks).sdlTime env.elapsedMs _ h1
  rw [main_run bits atoi env prog num mode kind ticks hinit hdev hmode hsurf hticks]
  rcases hr with hr | hr
  · rw [hr]
    exact ⟨h3, by rw [← h2, ← h4]; rfl⟩
  · rw [hr]
    refine ⟨inStep_emit _ _ (by simp) (inStep_emit _ _ (by simp)
      (inStep_emit _ _ (by simp) h3)), ?_⟩
    rw [← h2, ← h4]
    show drawCount (((w'.emit _).emit _).emit _).trace = _
    rw [drawCount_emit _ _ (by simp), drawCount_emit _ _ (by simp),
      drawCount_emit _ _ (by simp)]

/-- C9 (claim as stated, refuted): in a run with 200 warm-up iterations and three
ticks of which two render, `draw` has run 202 times and `s` is at step 21 of its
cycle of 181 (at most `1 + 21/180`), not at the claimed `1 + (202 mod 180) / 180`. -/
theorem C9_scale_formula_counterexample :
    (main 64 (fun _ => 200)
        { initOk := true, setupCurrent := true, deviceOk := true, textureName := 0,
          surfaceOk := true, warmupMs := 7,
          ticks := some [⟨true, true, 1, 1⟩, ⟨false, true, 0, 1⟩, ⟨true, false, 1, 0⟩],
          elapsedMs := 3000 }
        ["bench", "200", "gl"]).world.s ≤ 1 + 21 / 180
      ∧ ¬ ((main 64 (fun _ => 200)
        { initOk := true, setupCurrent := true, deviceOk := true, textureName := 0,
          surfaceOk := true, warmupMs := 7,
          ticks := some [⟨true, true, 1, 1⟩, ⟨false, true, 0, 1⟩, ⟨true, false, 1, 0⟩],
          elapsedMs := 3000 }
        ["bench", "200", "gl"]).world.s
          = 1 + ((((max (200 : Int) 0).toNat + 2) % 180 : Nat) : ℚ) / 180) := by
  obtain ⟨h1, h2⟩ := main_world 64 (fun _ => 200)
    { initOk := true, setupCurrent := true, deviceOk := true, textureName := 0,
      surfaceOk := true, warmupMs := 7,
      ticks := some [⟨true, true, 1, 1⟩, ⟨false, true, 0, 1⟩, ⟨true, false, 1, 0⟩],
      elapsedMs := 3000 }
    "bench" "200" "gl" Surface.gl
    [⟨true, true, 1, 1⟩, ⟨false, true, 0, 1⟩, ⟨true, false, 1, 0⟩]
    rfl rfl (by decide) rfl rfl
  have hc : (200 : Int).toNat
      + [(⟨true, true, 1, 1⟩ : Tick), ⟨false, true, 0, 1⟩, ⟨true, false, 1, 0⟩].countP
          (fun t => t.cairoCurrent) = 202 := by decide
  unfold World.inStep at h1
  rw [h2, hc] at h1
  have hb := (scale_bounds 202).2
  rw [← h1] at hb
  have hle : (main 64 (fun _ => 200)
        { initOk := true, setupCurrent := true, deviceOk := true, textureName := 0,
          surfaceOk := true, warmupMs := 7,
          ticks := some [⟨true, true, 1, 1⟩, ⟨false, true, 0, 1⟩, ⟨true, false, 1, 0⟩],
          elapsedMs := 3000 }
        ["bench", "200", "gl"]).world.s ≤ 1 + 21 / 180 := by
    norm_num at hb ⊢
    exact hb
  refine ⟨hle, fun heq => ?_⟩
  have e : ((max (200 : Int) 0).toNat + 2) % 180 = 22 := by decide
  rw [e] at heq
  rw [heq] at hle
  norm_num at hle

/-- C9 (amended): in every run that reaches the presentation loop (all checks passed)
and in which `window.main` returns after ticks of which `r` had `makeCairoCurrent`
succeed, `draw` has been invoked exactly `max(n, 0) + r` times, `n` being the parsed
iteration count, and the scale factor is the one a fresh process holds after that
many invocations (it is not reset between the phases): with `k = (max(n, 0) + r) mod
181` it is at most `1 + k/180` and below it by at most `2 ^ (-48)`. A tick whose
`makeCairoCurrent` fails leaves it unchanged. -/
theorem C9_draws_across_phases (bits : Nat) (atoi : String → Int) (env : Env)
    (prog num mode : String) (kind : Surface) (ticks : List Tick)
    (hinit : env.initOk = true) (hdev : env.deviceOk = true)
    (hmode : selectSurface mode = some kind) (hsurf : env.surfaceOk = true)
    (hticks : env.ticks = some ticks) :
    drawCount (main bits atoi env [prog, num, mode]).world.trace
        = (max (atoi num) 0).toNat + ticks.countP (fun t => t.cairoCurrent)
      ∧ (main bits atoi env [prog, num, mode]).world.s
        = (draw^[(max (atoi num) 0).toNat + ticks.countP (fun t => t.cairoCurrent)]
            World.fresh).s
      ∧ 1 + ((((max (atoi num) 0).toNat + ticks.countP (fun t => t.cairoCurrent)) % 181
            : Nat) : ℚ) * (1 / 180) - 1 / 2 ^ 48
          ≤ (main bits atoi env [prog, num, mode]).world.s
      ∧ (main bits atoi env [prog, num, mode]).world.s
          ≤ 1 + ((((max (atoi num) 0).toNat + ticks.countP (fun t => t.cairoCurrent)) % 181
            : Nat) : ℚ) * (1 / 180)
      ∧ ∀ (st : LoopState) (t : Tick) (texture : Nat), t.cairoCurrent = false →
          (tickBody bits texture st t).world.s = st.world.s := by
  obtain ⟨h1, h2⟩ := main_world bits atoi env prog num mode kind ticks hinit hdev hmode
    hsurf hticks
  have hmax : (max (atoi num) 0).toNat = (atoi num).toNat := by omega
  unfold World.inStep at h1
  rw [h2, ← hmax] at h1
  obtain ⟨b1, b2⟩ := scale_bounds
    ((max (atoi num) 0).toNat + ticks.countP (fun t => t.cairoCurrent))
  refine ⟨by rw [hmax, h2], ?_, ?_, ?_,
    fun st t texture h => tickBody_skip_s bits texture st t h⟩
  · rw [h1, iterate_draw_s]
  · rw [h1]
    exact b1
  · rw [h1]
    exact b2

theorem C9_draws_across_phases_witness :
    drawCount (main 64 (fun _ => 50)
        { initOk := true, setupCurrent := false, deviceOk := true, textureName := 0,
          surfaceOk := true, warmupMs := 3,
          ticks := some [⟨false, true, 0, 2⟩, ⟨true, true, 4, 2⟩],
          elapsedMs := 1500 }
        ["bench", "50", "image"]).world.trace
      = (max (50 : Int) 0).toNat
          + [(⟨false, true, 0, 2⟩ : Tick), ⟨true, true, 4, 2⟩].countP
              (fun t => t.cairoCurrent) :=
  (C9_draws_across_phases 64 (fun _ => 50)
    { initOk := true, setupCurrent := false, deviceOk := true, textureName := 0,
      surfaceOk := true, warmupMs := 3,
      ticks := some [⟨false, true, 0, 2⟩, ⟨true, true, 4, 2⟩],
      elapsedMs := 1500 }
    "bench" "50" "image" Surface.image
    [⟨false, true, 0, 2⟩, ⟨true, true, 4, 2⟩]
    rfl rfl (by decide) rfl rfl).1

/-! ### Statistics lines with no frame -/

/-- C6 (claim as stated, refuted): a run with mode "image" that passes every check
and whose `window.main` returns two seconds later without having delivered a tick
does not finish its statistics: it ends in an integer division by zero. -/
theorem C6_zero_frames_counterexample :
    (main 64 (fun _ => 10)
        { initOk := true, setupCurrent := true, deviceOk := true, textureName := 0,
          surfaceOk := true, warmupMs := 0, ticks := some [], elapsedMs := 2000 }
        ["bench", "10", "image"]).isDivByZero = true := by
  rw [main_run 64 (fun _ => 10) _ "bench" "10" "image" Surface.image [] rfl rfl (by decide)
    rfl rfl]
  simp [loopExit, presentationLoop, report, udiv, Outcome.isDivByZero]

/-- C6 (amended): with a frame count of zero the statistics lines never complete:
either the FPS divisor is zero as well (`d < 1000`) and nothing is printed, or
"FPS: 0" is printed and `cairoTime / frames` is executed with the zero divisor. -/
theorem C6_zero_frames_divides (c p d : Nat) (w : World) :
    report 0 c p d w
      = .error (if d / 1000 = 0 then w else w.emit (Event.printFps 0)) := by
  by_cases h : d / 1000 = 0
  · simp [report, udiv, h]
  · simp [report, udiv, h]

end CairoBench
